import Mathlib

/-!
Verification of the nearest-entity resolution and forecast-trend
derivation core of the gorbuljon application.

The definitions below are shallow embeddings of the TypeScript source:
- `calculateTrend` and its pipeline (daily reduction, sort, window
  selection, classification) embed `calculateTrend` of `src/App.tsx`
  (lines 796-893);
- `calculateDistance` embeds the haversine helper of `src/App.tsx`
  (lines 781-793);
- `nearestEntryScan` embeds the nearest-entry linear scan of
  `loadWaterTemperatureData` (`src/App.tsx`, lines 517-534);
- `nearestStationScan` embeds the nearest-station linear scan of
  `loadForecast` (`src/App.tsx`, lines 666-676);
- `determinePressureTrend` and `extractPreviousHourPressure` embed the
  functions of the same names in `src/api/weather.ts` (lines 111-133).

JavaScript numbers are modelled as rationals where the code only does
field arithmetic and comparisons, and as reals where it calls the
transcendental `Math` functions (haversine).  A JavaScript `Date` is
modelled as a calendar-day index together with an hour and minute of
day, so that `toISOString().split('T')[0]` becomes the day index,
`getHours()` the hour, and `getTime()` the minute count since the
epoch.  Reading the wall clock (`new Date()` for "today") is modelled
as an explicit `today` parameter.
-/

namespace Gorbuljon

/-- A `Date` value: calendar-day index plus time of day.  `day` is the
number of whole days since the epoch (so the `YYYY-MM-DD` date key of
two timestamps agree iff their `day`s agree), `hour` and `minute` the
time-of-day components returned by `getHours()`/`getMinutes()`. -/
structure Timestamp where
  day : ℤ
  hour : Fin 24
  minute : Fin 60
deriving DecidableEq

/-- `Date.getTime()` up to the constant factor of 60000: total minutes
since the epoch. -/
def Timestamp.getTime (t : Timestamp) : ℤ :=
  t.day * 1440 + (t.hour.val : ℤ) * 60 + (t.minute.val : ℤ)

/-- One forecast sample (`Forecast` in `src/api/water.ts`): a date, a
numeric value and a confidence percentage. -/
structure Forecast where
  date : Timestamp
  value : ℚ
  conf : ℚ
deriving DecidableEq

/-- `Math.abs(date.getHours() - 12)`: the hour-of-day distance from
noon used by the daily reduction of `calculateTrend`. -/
def noonDiff (t : Timestamp) : ℕ :=
  ((t.hour.val : ℤ) - 12).natAbs

/-- One step of the `forecasts.reduce` accumulator of `calculateTrend`
(`src/App.tsx`, lines 802-826): find the first accumulated sample with
the same date key; if none, push the new sample at the end; otherwise
replace it in place exactly when the new sample's hour is strictly
closer to noon. -/
def insertDaily : List Forecast → Forecast → List Forecast
  | [], f => [f]
  | g :: rest, f =>
    if g.date.day = f.date.day then
      (if noonDiff f.date < noonDiff g.date then f else g) :: rest
    else
      g :: insertDaily rest f

/-- The full daily reduction: `forecasts.reduce(..., [])`. -/
def dailyReduce (forecasts : List Forecast) : List Forecast :=
  forecasts.foldl insertDaily []

/-- The comparator of `dailyForecasts.sort((a, b) => a.getTime() -
b.getTime())`: earlier or equal timestamp first. -/
def byTime (a b : Forecast) : Prop :=
  a.date.getTime ≤ b.date.getTime

instance : DecidableRel byTime := fun _ _ => Int.decLe _ _

instance : IsTotal Forecast byTime := ⟨fun _ _ => Int.le_total _ _⟩

instance : IsTrans Forecast byTime := ⟨fun _ _ _ => Int.le_trans⟩

/-- `dailyForecasts.sort((a, b) => a.getTime() - b.getTime())`
(`src/App.tsx`, line 833).  JavaScript array sort is stable; any
stable sort computes the same list, so we use a stable insertion
sort on `getTime`. -/
def sortByTime (l : List Forecast) : List Forecast :=
  l.insertionSort byTime

/-- The forecast window of `calculateTrend` (`src/App.tsx`, lines
832-844): sort the reduced daily samples by time, keep those whose
midnight-normalised date is strictly after today, take the first 5. -/
def futureWindow (today : ℤ) (forecasts : List Forecast) : List Forecast :=
  ((sortByTime (dailyReduce forecasts)).filter
    (fun f => decide (today < f.date.day))).take 5

/-- The qualitative trend kind. -/
inductive TrendType where
  | stable
  | increasing
  | decreasing
deriving DecidableEq

/-- The record returned by `calculateTrend` on success. -/
structure TrendResult where
  type : TrendType
  change : ℚ
  percentChange : ℚ
  days : ℤ
deriving DecidableEq

/-- `calculateTrend` of `src/App.tsx` (lines 796-893).  `today` is the
midnight-normalised current date (`new Date()` with hours zeroed),
passed explicitly; an absent current water level is `none`. -/
def calculateTrend (today : ℤ) (forecasts : List Forecast)
    (currentWaterLevel : Option ℚ) : Option TrendResult :=
  match currentWaterLevel with
  | none => none
  | some cv =>
    if forecasts.length < 2 then none
    else if (dailyReduce forecasts).length < 2 then none
    else
      match futureWindow today forecasts with
      | [] => none
      | [_] => none
      | f1 :: f2 :: rest =>
        let lastForecast := (f1 :: f2 :: rest).getLast (List.cons_ne_nil f1 (f2 :: rest))
        let change := lastForecast.value - cv
        let percentChange := if cv ≠ 0 then change / |cv| * 100 else 0
        let days := lastForecast.date.day - f1.date.day
        let threshold := max (|cv| * (5 / 100)) 10
        if |change| < threshold then
          some { type := TrendType.stable, change := change,
                 percentChange := percentChange, days := days }
        else if 0 < change then
          some { type := TrendType.increasing, change := change,
                 percentChange := percentChange, days := days }
        else
          some { type := TrendType.decreasing, change := change,
                 percentChange := percentChange, days := days }

/-! ### Characterisation of a successful `calculateTrend` run -/

/-- When `calculateTrend` succeeds, its window is the non-degenerate
`futureWindow`, and every field of the result is determined by the
window's first and last samples exactly as the source computes them. -/
lemma calculateTrend_some_spec (today : ℤ) (fc : List Forecast) (cv : ℚ)
    (r : TrendResult) (h : calculateTrend today fc (some cv) = some r) :
    ∃ f1 lastF t, futureWindow today fc = f1 :: t ∧
      (futureWindow today fc).getLast? = some lastF ∧
      r.change = lastF.value - cv ∧
      r.percentChange = (if cv = 0 then 0 else r.change / |cv| * 100) ∧
      r.days = lastF.date.day - f1.date.day ∧
      r.type = (if |r.change| < max (|cv| * (5 / 100)) 10 then TrendType.stable
                else if 0 < r.change then TrendType.increasing
                else TrendType.decreasing) := by
  simp only [calculateTrend] at h
  split at h
  · simp at h
  · split at h
    · simp at h
    · split at h
      · simp at h
      · simp at h
      · rename_i f1 f2 rest hw
        refine ⟨f1, (f1 :: f2 :: rest).getLast (List.cons_ne_nil _ _),
          f2 :: rest, hw, ?_, ?_⟩
        · rw [hw]; exact List.getLast?_eq_getLast _ _
        · split at h
          · rename_i hcond
            injection h with h; subst h
            refine ⟨rfl, ?_, rfl, ?_⟩
            · by_cases hcv : cv = 0 <;> simp [hcv]
            · dsimp only
              rw [if_pos hcond]
          · split at h
            · rename_i hcond1 hcond2
              injection h with h; subst h
              refine ⟨rfl, ?_, rfl, ?_⟩
              · by_cases hcv : cv = 0 <;> simp [hcv]
              · dsimp only
                rw [if_neg hcond1, if_pos hcond2]
            · rename_i hcond1 hcond2
              injection h with h; subst h
              refine ⟨rfl, ?_, rfl, ?_⟩
              · by_cases hcv : cv = 0 <;> simp [hcv]
              · dsimp only
                rw [if_neg hcond1, if_neg hcond2]

/-- The forecast series of the specification's worked example: five
future days (days 1..5, with today = 0) carrying the values 102, 104,
103, 105, 106, each sampled at noon. -/
def exampleForecasts : List Forecast :=
  [⟨⟨1, 12, 0⟩, 102, 80⟩, ⟨⟨2, 12, 0⟩, 104, 80⟩, ⟨⟨3, 12, 0⟩, 103, 80⟩,
   ⟨⟨4, 12, 0⟩, 105, 80⟩, ⟨⟨5, 12, 0⟩, 106, 80⟩]

/-- C1: whenever the Trend Classifier accepts a forecast window and a
current value, the threshold is max(|currentValue| * 0.05, 10) and the
classification of change = lastWindowValue - currentValue is: |change|
below the threshold yields stable, otherwise positive change yields
increasing and non-positive change decreasing. -/
theorem c1_trend_threshold_classification (today : ℤ) (fc : List Forecast)
    (cv : ℚ) (r : TrendResult)
    (h : calculateTrend today fc (some cv) = some r) :
    ∃ lastF, (futureWindow today fc).getLast? = some lastF ∧
      r.change = lastF.value - cv ∧
      r.type = (if |r.change| < max (|cv| * (5 / 100)) 10 then TrendType.stable
                else if 0 < r.change then TrendType.increasing
                else TrendType.decreasing) := by
  obtain ⟨f1, lastF, t, hw, hl, hchange, hpercent, hdays, htype⟩ :=
    calculateTrend_some_spec today fc cv r h
  exact ⟨lastF, hl, hchange, htype⟩

/-- The result record of the spec's worked example: stable, change 6,
percent change 6, day span 4. -/
def exampleStableResult : TrendResult :=
  { type := TrendType.stable, change := 6, percentChange := 6, days := 4 }

/-- C1 witness: the spec's example (current value 100, noon samples
102, 104, 103, 105, 106 on the next five days) is accepted, the change
is 106 - 100 = 6, and the classification formula yields stable. -/
theorem c1_trend_threshold_classification_witness :
    ∃ lastF, (futureWindow 0 exampleForecasts).getLast? = some lastF ∧
      exampleStableResult.change = lastF.value - 100 ∧
      exampleStableResult.type =
        (if |exampleStableResult.change| < max (|(100 : ℚ)| * (5 / 100)) 10 then
          TrendType.stable
         else if 0 < exampleStableResult.change then TrendType.increasing
         else TrendType.decreasing) :=
  c1_trend_threshold_classification 0 exampleForecasts 100 exampleStableResult
    (by norm_num [calculateTrend, futureWindow, sortByTime, byTime, dailyReduce,
      insertDaily, noonDiff, List.insertionSort, List.orderedInsert,
      Timestamp.getTime, exampleForecasts, exampleStableResult, List.getLast])

/-- C8: the percent change returned by the Trend Classifier is
change / |currentValue| * 100, and the division by zero is guarded: it
is defined as 0 when the current value is 0. -/
theorem c8_percent_change_guarded (today : ℤ) (fc : List Forecast)
    (cv : ℚ) (r : TrendResult)
    (h : calculateTrend today fc (some cv) = some r) :
    r.percentChange = (if cv = 0 then 0 else r.change / |cv| * 100) := by
  obtain ⟨f1, lastF, t, hw, hl, hchange, hpercent, hdays, htype⟩ :=
    calculateTrend_some_spec today fc cv r h
  exact hpercent

/-- The result record of the zero-current-value run on the example
series: increasing, change 106, percent change 0 (guarded), day span 4. -/
def exampleZeroCvResult : TrendResult :=
  { type := TrendType.increasing, change := 106, percentChange := 0, days := 4 }

/-- C8 witness: with current value 0 (the guarded case) the classifier
still succeeds on the example series and reports percent change 0. -/
theorem c8_percent_change_guarded_witness :
    exampleZeroCvResult.percentChange =
      (if (0 : ℚ) = 0 then 0
       else exampleZeroCvResult.change / |(0 : ℚ)| * 100) :=
  c8_percent_change_guarded 0 exampleForecasts 0 exampleZeroCvResult
    (by norm_num [calculateTrend, futureWindow, sortByTime, byTime, dailyReduce,
      insertDaily, noonDiff, List.insertionSort, List.orderedInsert,
      Timestamp.getTime, exampleForecasts, exampleZeroCvResult, List.getLast])

/-! ### Window selection and absence (C4) -/

/-- Two timestamps in `getTime` order are in calendar-day order. -/
lemma Timestamp.day_le_of_getTime_le {t1 t2 : Timestamp}
    (h : t1.getTime ≤ t2.getTime) : t1.day ≤ t2.day := by
  have h1 : t1.hour.val < 24 := t1.hour.isLt
  have h2 : t2.hour.val < 24 := t2.hour.isLt
  have h3 : t1.minute.val < 60 := t1.minute.isLt
  have h4 : t2.minute.val < 60 := t2.minute.isLt
  simp only [Timestamp.getTime] at h
  omega

/-- Sorting does not change membership. -/
lemma mem_sortByTime {s : Forecast} {l : List Forecast} :
    s ∈ sortByTime l ↔ s ∈ l :=
  (List.perm_insertionSort byTime l).mem_iff

/-- The sort step really sorts by `getTime`. -/
lemma sortByTime_sorted (l : List Forecast) :
    (sortByTime l).Sorted byTime :=
  List.sorted_insertionSort byTime l

/-- The future window is a sub-list of the sorted reduced series. -/
lemma futureWindow_sublist (today : ℤ) (fc : List Forecast) :
    (futureWindow today fc).Sublist (sortByTime (dailyReduce fc)) :=
  (List.take_sublist _ _).trans (List.filter_sublist _)

/-- C4: the selected window contains only calendar days strictly after
today, has at most 5 entries, is in date order, and draws only from
the daily-reduced samples; and every insufficiency (fewer than 2 raw
samples, fewer than 2 reduced samples, an absent current value, or a
window of fewer than 2 days) makes the classifier yield `none` rather
than raising an exception. -/
theorem c4_window_selection_and_absence (today : ℤ) (fc : List Forecast)
    (cv : Option ℚ) :
    (∀ s ∈ futureWindow today fc, today < s.date.day) ∧
    (futureWindow today fc).length ≤ 5 ∧
    (futureWindow today fc).Sorted (fun a b => a.date.day ≤ b.date.day) ∧
    (∀ s ∈ futureWindow today fc, s ∈ dailyReduce fc) ∧
    (fc.length < 2 → calculateTrend today fc cv = none) ∧
    ((dailyReduce fc).length < 2 → calculateTrend today fc cv = none) ∧
    calculateTrend today fc none = none ∧
    ((futureWindow today fc).length < 2 → calculateTrend today fc cv = none) := by
  refine ⟨?_, ?_, ?_, ?_, ?_, ?_, rfl, ?_⟩
  · intro s hs
    have hmem := List.mem_of_mem_take hs
    simpa using (List.mem_filter.mp hmem).2
  · exact List.length_take_le _ _
  · exact (List.Pairwise.sublist (futureWindow_sublist today fc)
      (sortByTime_sorted _)).imp
      (fun hab => Timestamp.day_le_of_getTime_le hab)
  · intro s hs
    have hmem := List.mem_of_mem_take hs
    exact mem_sortByTime.mp (List.mem_filter.mp hmem).1
  · intro hlen
    cases cv with
    | none => rfl
    | some c => simp [calculateTrend, hlen]
  · intro hlen
    cases cv with
    | none => rfl
    | some c =>
      by_cases h2 : fc.length < 2
      · simp [calculateTrend, h2]
      · simp [calculateTrend, h2, hlen]
  · intro hlen
    cases cv with
    | none => rfl
    | some c =>
      by_cases h2 : fc.length < 2
      · simp [calculateTrend, h2]
      · by_cases h3 : (dailyReduce fc).length < 2
        · simp [calculateTrend, h2, h3]
        · rcases hw : futureWindow today fc with _ | ⟨a, _ | ⟨b, t⟩⟩
          · simp [calculateTrend, h2, h3, hw]
          · simp [calculateTrend, h2, h3, hw]
          · rw [hw] at hlen
            simp only [List.length_cons] at hlen
            omega

/-- C4 witness: the empty forecast series (fewer than 2 samples)
yields an absent result. -/
theorem c4_window_selection_and_absence_witness :
    calculateTrend 0 [] (some 5) = none :=
  (c4_window_selection_and_absence 0 [] (some 5)).2.2.2.2.1 (by decide)

/-! ### The daily reduction (C2, C3) -/

/-- The reduced accumulator holds at most one sample per calendar
date. -/
def DistinctDays (l : List Forecast) : Prop :=
  l.Pairwise (fun a b => a.date.day ≠ b.date.day)

/-- Every sample of the accumulator after one insertion is either an
old sample or the inserted one. -/
lemma mem_insertDaily {acc : List Forecast} {f s : Forecast}
    (h : s ∈ insertDaily acc f) : s ∈ acc ∨ s = f := by
  induction acc with
  | nil => simpa [insertDaily] using h
  | cons g rest ih =>
    by_cases hd : g.date.day = f.date.day
    · simp only [insertDaily, if_pos hd] at h
      by_cases hn : noonDiff f.date < noonDiff g.date
      · rw [if_pos hn] at h
        rcases List.mem_cons.mp h with h | h
        · exact Or.inr h
        · exact Or.inl (List.mem_cons_of_mem _ h)
      · rw [if_neg hn] at h
        exact Or.inl h
    · simp only [insertDaily, if_neg hd] at h
      rcases List.mem_cons.mp h with h | h
      · exact Or.inl (h ▸ List.mem_cons_self _ _)
      · rcases ih h with h | h
        · exact Or.inl (List.mem_cons_of_mem _ h)
        · exact Or.inr h

/-- After inserting `f`, some accumulated sample carries the calendar
date of `f`. -/
lemma insertDaily_covers_new (acc : List Forecast) (f : Forecast) :
    ∃ s ∈ insertDaily acc f, s.date.day = f.date.day := by
  induction acc with
  | nil => exact ⟨f, by simp [insertDaily]⟩
  | cons g rest ih =>
    by_cases hd : g.date.day = f.date.day
    · simp only [insertDaily, if_pos hd]
      by_cases hn : noonDiff f.date < noonDiff g.date
      · exact ⟨f, by simp [hn]⟩
      · exact ⟨g, by simp [hn], hd⟩
    · obtain ⟨s, hs, hday⟩ := ih
      exact ⟨s, by simp [insertDaily, hd, hs], hday⟩

/-- Inserting a sample keeps every already-covered calendar date
covered, and never worsens (in hour distance from noon) the sample
kept for such a date. -/
lemma insertDaily_improves {acc : List Forecast} {u : Forecast}
    (f : Forecast) (hu : u ∈ acc) :
    ∃ v ∈ insertDaily acc f, v.date.day = u.date.day ∧
      noonDiff v.date ≤ noonDiff u.date := by
  induction acc with
  | nil => cases hu
  | cons g rest ih =>
    rcases List.mem_cons.mp hu with hg | hrest
    · subst hg
      by_cases hd : u.date.day = f.date.day
      · simp only [insertDaily, if_pos hd]
        by_cases hn : noonDiff f.date < noonDiff u.date
        · exact ⟨f, by simp [hn], hd.symm, le_of_lt hn⟩
        · exact ⟨u, by simp [hn], rfl, le_refl _⟩
      · exact ⟨u, by simp [insertDaily, hd], rfl, le_refl _⟩
    · by_cases hd : g.date.day = f.date.day
      · exact ⟨u, by simp [insertDaily, hd, hrest], rfl, le_refl _⟩
      · obtain ⟨v, hv, hday, hle⟩ := ih hrest
        exact ⟨v, by simp [insertDaily, hd, hv], hday, hle⟩

/-- Insertion preserves the one-sample-per-date invariant. -/
lemma distinctDays_insertDaily {acc : List Forecast} (f : Forecast)
    (h : DistinctDays acc) : DistinctDays (insertDaily acc f) := by
  induction acc with
  | nil => simp [insertDaily, DistinctDays]
  | cons g rest ih =>
    obtain ⟨hg, hrest⟩ := List.pairwise_cons.mp h
    by_cases hd : g.date.day = f.date.day
    · simp only [insertDaily, if_pos hd]
      by_cases hn : noonDiff f.date < noonDiff g.date
      · rw [if_pos hn]
        exact List.pairwise_cons.mpr ⟨fun x hx => hd ▸ hg x hx, hrest⟩
      · rw [if_neg hn]
        exact List.pairwise_cons.mpr ⟨hg, hrest⟩
    · simp only [insertDaily, if_neg hd]
      refine List.pairwise_cons.mpr ⟨?_, ih hrest⟩
      intro x hx
      rcases mem_insertDaily hx with hx | hx
      · exact hg x hx
      · exact hx ▸ hd

/-- In a one-sample-per-date accumulator, the sample kept for the date
of a newly inserted `f` is at least as close to noon (by hour) as
`f`. -/
lemma insertDaily_noonDiff_le_new {acc : List Forecast} {f s : Forecast}
    (hacc : DistinctDays acc) (hs : s ∈ insertDaily acc f)
    (hday : s.date.day = f.date.day) :
    noonDiff s.date ≤ noonDiff f.date := by
  induction acc with
  | nil =>
    simp only [insertDaily, List.mem_singleton] at hs
    exact hs ▸ le_refl _
  | cons g rest ih =>
    obtain ⟨hg, hrest⟩ := List.pairwise_cons.mp hacc
    by_cases hd : g.date.day = f.date.day
    · simp only [insertDaily, if_pos hd] at hs
      by_cases hn : noonDiff f.date < noonDiff g.date
      · rw [if_pos hn] at hs
        rcases List.mem_cons.mp hs with h | h
        · exact h ▸ le_refl _
        · exact absurd (hday.trans hd.symm).symm (hg s h)
      · rw [if_neg hn] at hs
        rcases List.mem_cons.mp hs with h | h
        · exact h ▸ le_of_not_lt hn
        · exact absurd (hday.trans hd.symm).symm (hg s h)
    · simp only [insertDaily, if_neg hd] at hs
      rcases List.mem_cons.mp hs with h | h
      · exact absurd (h ▸ hday) hd
      · exact ih hrest h

/-- Two same-date samples of a one-sample-per-date list are equal. -/
lemma sameDay_eq_of_distinctDays {l : List Forecast} {s u : Forecast}
    (hl : DistinctDays l) (hs : s ∈ l) (hu : u ∈ l)
    (hday : s.date.day = u.date.day) : s = u := by
  by_contra hne
  exact (List.Pairwise.forall (fun a b hab => (Ne.symm hab)) hl hs hu hne) hday

/-- Full invariant of the reduction loop: starting from a
one-sample-per-date accumulator, folding `insertDaily` over `fc`
(1) keeps at most one sample per date, (2) only ever holds old or
incoming samples, (3) covers the date of every incoming sample,
(4) keeps every initially covered date covered, (5) never worsens the
kept sample against the initial accumulator, and (6) leaves, for every
incoming sample, a same-date sample at least as close to noon. -/
lemma foldl_insertDaily_spec (fc : List Forecast) :
    ∀ acc, DistinctDays acc →
      DistinctDays (List.foldl insertDaily acc fc) ∧
      (∀ s ∈ List.foldl insertDaily acc fc, s ∈ acc ∨ s ∈ fc) ∧
      (∀ t ∈ fc, ∃ s ∈ List.foldl insertDaily acc fc,
        s.date.day = t.date.day) ∧
      (∀ u ∈ acc, ∃ s ∈ List.foldl insertDaily acc fc,
        s.date.day = u.date.day) ∧
      (∀ s ∈ List.foldl insertDaily acc fc, ∀ u ∈ acc,
        u.date.day = s.date.day → noonDiff s.date ≤ noonDiff u.date) ∧
      (∀ s ∈ List.foldl insertDaily acc fc, ∀ t ∈ fc,
        t.date.day = s.date.day → noonDiff s.date ≤ noonDiff t.date) := by
  induction fc with
  | nil =>
    intro acc hacc
    refine ⟨hacc, fun s hs => Or.inl hs, by simp, ?_, ?_, by simp⟩
    · exact fun u hu => ⟨u, hu, rfl⟩
    · intro s hs u hu hday
      exact (sameDay_eq_of_distinctDays hacc hs hu hday.symm) ▸ le_refl _
  | cons f fs ih =>
    intro acc hacc
    have hacc2 : DistinctDays (insertDaily acc f) :=
      distinctDays_insertDaily f hacc
    obtain ⟨ha, hb, hc, hd, he, hf⟩ := ih (insertDaily acc f) hacc2
    simp only [List.foldl_cons]
    refine ⟨ha, ?_, ?_, ?_, ?_, ?_⟩
    · intro s hs
      rcases hb s hs with h | h
      · rcases mem_insertDaily h with h | h
        · exact Or.inl h
        · exact Or.inr (h ▸ List.mem_cons_self _ _)
      · exact Or.inr (List.mem_cons_of_mem _ h)
    · intro t ht
      rcases List.mem_cons.mp ht with h | h
      · obtain ⟨s, hs, hday⟩ := insertDaily_covers_new acc f
        obtain ⟨v, hv, hvday⟩ := hd s hs
        exact ⟨v, hv, h ▸ (hvday.trans hday)⟩
      · exact hc t h
    · intro u hu
      obtain ⟨v, hv, hvday, _⟩ := insertDaily_improves f hu
      obtain ⟨w, hw, hwday⟩ := hd v hv
      exact ⟨w, hw, hwday.trans hvday⟩
    · intro s hs u hu hday
      obtain ⟨v, hv, hvday, hvle⟩ := insertDaily_improves f hu
      have := he s hs v hv (hvday.trans hday)
      exact this.trans hvle
    · intro s hs t ht hday
      rcases List.mem_cons.mp ht with h | h
      · obtain ⟨v, hv, hvday⟩ := insertDaily_covers_new acc f
        have hvle : noonDiff v.date ≤ noonDiff f.date :=
          insertDaily_noonDiff_le_new hacc hv hvday
        have hsv := he s hs v hv (hvday.trans (h ▸ hday))
        rw [h]
        exact hsv.trans hvle
      · exact hf s hs t h hday

/-- Headline characterisation of the daily reduction, used by C3: the
reduced list has at most one sample per calendar date, consists of
input samples, covers the date of every input sample, and for each
date keeps a sample whose hour of day is closest to 12 among the
input samples of that date. -/
lemma dailyReduce_spec (fc : List Forecast) :
    DistinctDays (dailyReduce fc) ∧
    (∀ s ∈ dailyReduce fc, s ∈ fc) ∧
    (∀ t ∈ fc, ∃ s ∈ dailyReduce fc, s.date.day = t.date.day) ∧
    (∀ s ∈ dailyReduce fc, ∀ t ∈ fc,
      t.date.day = s.date.day → noonDiff s.date ≤ noonDiff t.date) := by
  obtain ⟨ha, hb, hc, _, _, hf⟩ :=
    foldl_insertDaily_spec fc [] List.Pairwise.nil
  refine ⟨ha, ?_, hc, hf⟩
  intro s hs
  rcases hb s hs with h | h
  · cases h
  · exact h

/-- The spec-side notion of time-of-day distance from local noon, in
whole minutes: what the phrase "time-of-day closest to 12:00" measures
when minutes are taken into account. -/
def minutesFromNoon (t : Timestamp) : ℕ :=
  ((t.hour.val : ℤ) * 60 + (t.minute.val : ℤ) - 720).natAbs

/-- A sample taken at 11:00 on day 0. -/
def sample1100 : Forecast := ⟨⟨0, 11, 0⟩, 5, 80⟩

/-- A sample taken at 13:00 on day 0, with a different value. -/
def sample1300 : Forecast := ⟨⟨0, 13, 0⟩, 7, 80⟩

/-- A sample taken at 11:30 on day 0. -/
def sample1130 : Forecast := ⟨⟨0, 11, 30⟩, 5, 80⟩

/-- A sample taken at 12:59 on day 0, with a different value. -/
def sample1259 : Forecast := ⟨⟨0, 12, 59⟩, 7, 80⟩

/-- C2 counterexample: two same-date samples at 11:00 and 13:00 tie in
hour distance from noon, yet the daily reduction keeps the
earlier-seen 11:00 sample, not the later-processed 13:00 one as the
claim states — the replacement at `src/App.tsx` line 819 fires only on
a strict decrease. -/
theorem c2_tie_counterexample :
    sample1100.date.day = sample1300.date.day ∧
    noonDiff sample1100.date = noonDiff sample1300.date ∧
    dailyReduce [sample1100, sample1300] = [sample1100] ∧
    dailyReduce [sample1100, sample1300] ≠ [sample1300] := by decide

/-- C2 (amended): when two samples of the same calendar date tie on
hour distance to noon, the earlier-seen sample is kept (first-wins on
tie): the later one never replaces it. -/
theorem c2_tie_keeps_first (s1 s2 : Forecast)
    (h1 : s1.date.day = s2.date.day)
    (h2 : noonDiff s1.date = noonDiff s2.date) :
    dailyReduce [s1, s2] = [s1] := by
  simp [dailyReduce, insertDaily, h1, h2]

/-- C2 witness: the 11:00/13:00 tie of the claim, in input order,
keeps the 11:00 sample. -/
theorem c2_tie_keeps_first_witness :
    dailyReduce [sample1100, sample1300] = [sample1100] :=
  c2_tie_keeps_first sample1100 sample1300 (by decide) (by decide)

/-- C3 counterexample: at 11:30 vs 12:59 on the same date, the sample
whose full time-of-day is closest to noon is the 11:30 one (30 min vs
59 min), yet the reduction keeps 12:59, because the source compares
only the hour component (`getHours()`). -/
theorem c3_noon_counterexample :
    sample1130.date.day = sample1259.date.day ∧
    minutesFromNoon sample1130.date < minutesFromNoon sample1259.date ∧
    dailyReduce [sample1130, sample1259] = [sample1259] ∧
    dailyReduce [sample1130, sample1259] ≠ [sample1130] := by decide

/-- C3 (amended): the daily reduction groups samples by calendar date
and keeps exactly one sample per represented date: one drawn from the
input whose HOUR of day is closest to 12 (minutes within the hour are
ignored) among that date's samples. -/
theorem c3_daily_reduction_by_hour (fc : List Forecast) :
    (dailyReduce fc).Pairwise (fun a b => a.date.day ≠ b.date.day) ∧
    (∀ s ∈ dailyReduce fc, s ∈ fc) ∧
    (∀ t ∈ fc, ∃ s ∈ dailyReduce fc, s.date.day = t.date.day) ∧
    (∀ s ∈ dailyReduce fc, ∀ t ∈ fc, t.date.day = s.date.day →
      noonDiff s.date ≤ noonDiff t.date) :=
  dailyReduce_spec fc

/-- C3 witness: on the 11:30/12:59 input the kept sample (12:59, hour
distance 0) is at least as close to hour 12 as the dropped 11:30 one
(hour distance 1). -/
theorem c3_daily_reduction_by_hour_witness :
    noonDiff sample1259.date ≤ noonDiff sample1130.date :=
  (c3_daily_reduction_by_hour [sample1130, sample1259]).2.2.2
    sample1259 (by decide) sample1130 (by decide) (by decide)

/-! ### The Distance Resolver (C5, C6, C7) -/

/-- `Math.atan2(y, x)`: the two-argument arctangent. -/
noncomputable def atan2 (y x : ℝ) : ℝ :=
  if 0 < x then Real.arctan (y / x)
  else if x < 0 then
    (if 0 ≤ y then Real.arctan (y / x) + Real.pi
     else Real.arctan (y / x) - Real.pi)
  else if 0 < y then Real.pi / 2
  else if y < 0 then -(Real.pi / 2)
  else 0

/-- `calculateDistance` of `src/App.tsx` (lines 781-793): the
haversine great-circle distance in kilometres between two coordinates
given in degrees, on a sphere of radius R = 6371 km. -/
noncomputable def calculateDistance (lat1 lon1 lat2 lon2 : ℝ) : ℝ :=
  let R : ℝ := 6371
  let dLat := (lat2 - lat1) * Real.pi / 180
  let dLon := (lon2 - lon1) * Real.pi / 180
  let a := Real.sin (dLat / 2) * Real.sin (dLat / 2) +
    Real.cos (lat1 * Real.pi / 180) * Real.cos (lat2 * Real.pi / 180) *
      (Real.sin (dLon / 2) * Real.sin (dLon / 2))
  let c := 2 * atan2 (Real.sqrt a) (Real.sqrt (1 - a))
  R * c

/-- C7: the haversine distance is symmetric in its two coordinates. -/
theorem c7_distance_symmetric (lat1 lon1 lat2 lon2 : ℝ) :
    calculateDistance lat1 lon1 lat2 lon2 =
      calculateDistance lat2 lon2 lat1 lon1 := by
  have h1 : (lat1 - lat2) * Real.pi / 180 / 2 =
      -((lat2 - lat1) * Real.pi / 180 / 2) := by ring
  have h2 : (lon1 - lon2) * Real.pi / 180 / 2 =
      -((lon2 - lon1) * Real.pi / 180 / 2) := by ring
  unfold calculateDistance
  simp only [h1, h2, Real.sin_neg]
  ring_nf

/-- A hydrological station (the fields of `Station` in
`src/api/water.ts` used by the nearest-station scan): identifier and
coordinate in decimal degrees. -/
structure Station where
  statid : ℕ
  lat : ℚ
  lon : ℚ
deriving DecidableEq

/-- The distance from the reference coordinate to a station, as the
scan of `loadForecast` computes it. -/
noncomputable def stationDist (refLat refLon : ℚ) (s : Station) : ℝ :=
  calculateDistance (refLat : ℝ) (refLon : ℝ) (s.lat : ℝ) (s.lon : ℝ)

/-- The nearest-station scan of `loadForecast` (`src/App.tsx`, lines
666-676): start from the first station as the incumbent, then walk the
whole list and replace the incumbent exactly when a station is
strictly closer. -/
noncomputable def nearestStationScan (refLat refLon : ℚ)
    (stations : List Station) : Option Station :=
  match stations with
  | [] => none
  | s0 :: _ =>
    some ((stations.foldl
      (fun acc s =>
        if stationDist refLat refLon s < acc.2
        then (s, stationDist refLat refLon s) else acc)
      (s0, stationDist refLat refLon s0)).1)

/-- The strict-improvement fold keeps, together with its running
minimum, the first element of `b :: l` attaining the minimum of `d`:
every element left of the result is strictly farther, and no element
is strictly closer. -/
lemma foldl_min_first_argmin (d : Station → ℝ) :
    ∀ (l : List Station) (b : Station),
      ∃ r : Station,
        l.foldl (fun acc s => if d s < acc.2 then (s, d s) else acc)
          (b, d b) = (r, d r) ∧
        ∃ l1 l2, b :: l = l1 ++ r :: l2 ∧
          (∀ x ∈ l1, d r < d x) ∧
          (∀ x ∈ b :: l, d r ≤ d x) := by
  intro l
  induction l with
  | nil =>
    intro b
    exact ⟨b, rfl, [], [], rfl, by simp, by simp⟩
  | cons c l ih =>
    intro b
    by_cases hc : d c < d b
    · obtain ⟨r, hr, l1, l2, hsplit, hstrict, hmin⟩ := ih c
      refine ⟨r, ?_, b :: l1, l2, by rw [List.cons_append, hsplit], ?_, ?_⟩
      · simpa [List.foldl_cons, if_pos hc] using hr
      · intro x hx
        rcases List.mem_cons.mp hx with h | h
        · have hrc : d r ≤ d c := hmin c (List.mem_cons_self _ _)
          exact h ▸ lt_of_le_of_lt hrc hc
        · exact hstrict x h
      · intro x hx
        rcases List.mem_cons.mp hx with h | h
        · have hrc : d r ≤ d c := hmin c (List.mem_cons_self _ _)
          exact h ▸ le_of_lt (lt_of_le_of_lt hrc hc)
        · exact hmin x h
    · obtain ⟨r, hr, l1, l2, hsplit, hstrict, hmin⟩ := ih b
      have hbc : d b ≤ d c := le_of_not_lt hc
      have hrb : d r ≤ d b := hmin b (List.mem_cons_self _ _)
      refine ⟨r, ?_, ?_⟩
      · simpa [List.foldl_cons, if_neg hc] using hr
      · rcases l1 with _ | ⟨a, l1t⟩
        · have hrbeq : b = r := by
            simpa using congrArg (fun t => t.head?) hsplit
          refine ⟨[], c :: l, by rw [← hrbeq]; exact (List.nil_append _).symm,
            by simp, ?_⟩
          intro x hx
          rcases List.mem_cons.mp hx with h | h
          · exact h ▸ hrb
          · rcases List.mem_cons.mp h with h | h
            · exact h ▸ hrb.trans hbc
            · exact hmin x (List.mem_cons_of_mem _ h)
        · have hab : a = b := by
            simpa using congrArg (fun t => t.head?) hsplit.symm
          have hl : l = l1t ++ r :: l2 := by
            simpa [hab] using congrArg List.tail hsplit
          have hrltb : d r < d b := hstrict b (hab ▸ List.mem_cons_self a l1t)
          refine ⟨b :: c :: l1t, l2, by rw [List.cons_append, List.cons_append, hl], ?_, ?_⟩
          · intro x hx
            rcases List.mem_cons.mp hx with h | h
            · exact h ▸ hrltb
            · rcases List.mem_cons.mp h with h | h
              · exact h ▸ lt_of_lt_of_le hrltb hbc
              · exact hstrict x (hab ▸ List.mem_cons_of_mem a h)
          · intro x hx
            rcases List.mem_cons.mp hx with h | h
            · exact h ▸ hrb
            · rcases List.mem_cons.mp h with h | h
              · exact h ▸ hrb.trans hbc
              · exact hmin x (List.mem_cons_of_mem _ h)

/-- C6: on a non-empty candidate list the nearest-station scan returns
the candidate minimising the haversine distance, and among equally
near candidates the first one in input order: every candidate strictly
before the returned one is strictly farther. -/
theorem c6_nearest_station_first_min (refLat refLon : ℚ)
    (stations : List Station) (hne : stations ≠ []) :
    ∃ c l1 l2, stations = l1 ++ c :: l2 ∧
      nearestStationScan refLat refLon stations = some c ∧
      (∀ s ∈ stations,
        stationDist refLat refLon c ≤ stationDist refLat refLon s) ∧
      (∀ s ∈ l1,
        stationDist refLat refLon c < stationDist refLat refLon s) := by
  rcases stations with _ | ⟨s0, rest⟩
  · exact absurd rfl hne
  · obtain ⟨r, hr, l1, l2, hsplit, hstrict, hmin⟩ :=
      foldl_min_first_argmin (stationDist refLat refLon) (s0 :: rest) s0
    have hres : nearestStationScan refLat refLon (s0 :: rest) = some r := by
      simp only [nearestStationScan, hr]
    have hminlist : ∀ s ∈ s0 :: rest,
        stationDist refLat refLon r ≤ stationDist refLat refLon s :=
      fun s hs => hmin s (List.mem_cons_of_mem _ hs)
    rcases l1 with _ | ⟨a, l1t⟩
    · have hrs0 : s0 = r := by
        simpa using congrArg (fun t => t.head?) hsplit
      exact ⟨r, [], rest, by rw [← hrs0]; exact (List.nil_append _).symm,
        hres, hminlist, by simp⟩
    · have has0 : a = s0 := by
        simpa using congrArg (fun t => t.head?) hsplit.symm
      have hl : s0 :: rest = l1t ++ r :: l2 := by
        simpa [has0] using congrArg List.tail hsplit
      refine ⟨r, l1t, l2, hl, hres, hminlist, ?_⟩
      intro s hs
      exact hstrict s (has0 ▸ List.mem_cons_of_mem a hs)

/-- A single demonstration station. -/
def stationA : Station := ⟨1, 47, 19⟩

/-- C6 witness: the scan on the one-station list `[stationA]` returns
a first-position minimiser. -/
theorem c6_nearest_station_first_min_witness :
    ∃ c l1 l2, [stationA] = l1 ++ c :: l2 ∧
      nearestStationScan 46 18 [stationA] = some c ∧
      (∀ s ∈ [stationA], stationDist 46 18 c ≤ stationDist 46 18 s) ∧
      (∀ s ∈ l1, stationDist 46 18 c < stationDist 46 18 s) :=
  c6_nearest_station_first_min 46 18 [stationA] (by simp)

/-- A water-temperature measurement entry (the fields of
`MeasurementEntry` used by the nearest-entry scan of
`loadWaterTemperatureData`): identifier and coordinate.  A coordinate
the source could not parse arrives as 0, per its `|| 0` fallback. -/
structure MeasurementEntry where
  statid : ℕ
  lat : ℚ
  lon : ℚ
deriving DecidableEq

/-- The distance from the reference coordinate to an entry. -/
noncomputable def entryDist (refLat refLon : ℚ) (e : MeasurementEntry) : ℝ :=
  calculateDistance (refLat : ℝ) (refLon : ℝ) (e.lat : ℝ) (e.lon : ℝ)

/-- One iteration of the nearest-entry loop of
`loadWaterTemperatureData` (`src/App.tsx`, lines 521-534): skip an
entry whose latitude and longitude are both 0; otherwise adopt it when
no incumbent exists (the initial minimum is Infinity) or when it is
strictly closer than the incumbent. -/
noncomputable def entryStep (refLat refLon : ℚ)
    (acc : Option (MeasurementEntry × ℝ)) (entry : MeasurementEntry) :
    Option (MeasurementEntry × ℝ) :=
  if entry.lat = 0 ∧ entry.lon = 0 then acc
  else
    match acc with
    | none => some (entry, entryDist refLat refLon entry)
    | some (b, m) =>
      if entryDist refLat refLon entry < m
      then some (entry, entryDist refLat refLon entry) else some (b, m)

/-- The nearest-entry scan of `loadWaterTemperatureData`
(`src/App.tsx`, lines 517-534): fold the loop body over the entries,
starting from no incumbent, and return the nearest entry if any. -/
noncomputable def nearestEntryScan (refLat refLon : ℚ)
    (entries : List MeasurementEntry) : Option MeasurementEntry :=
  (entries.foldl (entryStep refLat refLon) none).map Prod.fst

/-- An entry has a usable coordinate when its latitude and longitude
are not both zero. -/
def usableCoord (e : MeasurementEntry) : Prop :=
  ¬(e.lat = 0 ∧ e.lon = 0)

instance : DecidablePred usableCoord := fun _ => instDecidableNot

/-- Loop invariant of the nearest-entry scan: a usable incumbent stays
usable, an all-unusable suffix leaves the accumulator unchanged, and a
usable entry guarantees an incumbent at the end. -/
lemma foldl_entryStep_spec (refLat refLon : ℚ) :
    ∀ (entries : List MeasurementEntry)
      (acc : Option (MeasurementEntry × ℝ)),
      (∀ b m, acc = some (b, m) → usableCoord b) →
      (∀ b m, entries.foldl (entryStep refLat refLon) acc = some (b, m) →
        usableCoord b) ∧
      ((∀ c ∈ entries, ¬usableCoord c) →
        entries.foldl (entryStep refLat refLon) acc = acc) ∧
      ((∃ c ∈ entries, usableCoord c) ∨ (∃ b m, acc = some (b, m)) →
        ∃ b m, entries.foldl (entryStep refLat refLon) acc = some (b, m)) := by
  intro entries
  induction entries with
  | nil =>
    intro acc hacc
    refine ⟨hacc, fun _ => rfl, ?_⟩
    rintro (⟨c, hc, _⟩ | ⟨b, m, hb⟩)
    · cases hc
    · exact ⟨b, m, hb⟩
  | cons e es ih =>
    intro acc hacc
    have hstep : ∀ b m, entryStep refLat refLon acc e = some (b, m) →
        usableCoord b := by
      intro b m hb
      by_cases hu : usableCoord e
      · simp only [entryStep, if_neg hu] at hb
        rcases hacc0 : acc with _ | ⟨b0, m0⟩
        · rw [hacc0] at hb
          simp only [Option.some.injEq, Prod.mk.injEq] at hb
          exact hb.1 ▸ hu
        · rw [hacc0] at hb
          by_cases hlt : entryDist refLat refLon e < m0
          · simp only [if_pos hlt, Option.some.injEq, Prod.mk.injEq] at hb
            exact hb.1 ▸ hu
          · simp only [if_neg hlt, Option.some.injEq, Prod.mk.injEq] at hb
            exact hb.1 ▸ hacc b0 m0 hacc0
      · have : entryStep refLat refLon acc e = acc := by
          simp only [entryStep, usableCoord, not_not] at hu ⊢
          exact if_pos hu
        rw [this] at hb
        exact hacc b m hb
    obtain ⟨ha, hb, hc⟩ := ih (entryStep refLat refLon acc e) hstep
    refine ⟨by simpa using ha, ?_, ?_⟩
    · intro hall
      have he : entryStep refLat refLon acc e = acc := by
        have hu := hall e (List.mem_cons_self _ _)
        simp only [usableCoord, not_not] at hu
        simp only [entryStep]
        exact if_pos hu
      have := hb (fun c hcmem => hall c (List.mem_cons_of_mem _ hcmem))
      simpa [he] using this
    · intro hex
      have hsome : (∃ c ∈ es, usableCoord c) ∨
          (∃ b m, entryStep refLat refLon acc e = some (b, m)) := by
        rcases hex with ⟨c, hcmem, hcu⟩ | ⟨b0, m0, hb0⟩
        · rcases List.mem_cons.mp hcmem with h | h
          · refine Or.inr ?_
            subst h
            rcases hacc0 : acc with _ | ⟨b1, m1⟩
            · exact ⟨c, entryDist refLat refLon c, by
                simp only [entryStep, usableCoord] at hcu ⊢
                rw [if_neg hcu]⟩
            · by_cases hlt : entryDist refLat refLon c < m1
              · exact ⟨c, entryDist refLat refLon c, by
                  simp only [entryStep, usableCoord] at hcu ⊢
                  rw [if_neg hcu, if_pos hlt]⟩
              · exact ⟨b1, m1, by
                  simp only [entryStep, usableCoord] at hcu ⊢
                  rw [if_neg hcu, if_neg hlt]⟩
          · exact Or.inl ⟨c, h, hcu⟩
        · refine Or.inr ?_
          by_cases hu : usableCoord e
          · rw [hb0]
            by_cases hlt : entryDist refLat refLon e < m0
            · exact ⟨e, entryDist refLat refLon e, by
                simp only [entryStep, usableCoord] at hu ⊢
                rw [if_neg hu, if_pos hlt]⟩
            · exact ⟨b0, m0, by
                simp only [entryStep, usableCoord] at hu ⊢
                rw [if_neg hu, if_neg hlt]⟩
          · have : entryStep refLat refLon acc e = acc := by
              simp only [usableCoord, not_not] at hu
              simp only [entryStep]
              exact if_pos hu
            exact ⟨b0, m0, this.trans hb0 ▸ rfl⟩
      have := hc hsome
      simpa using this

/-- C5 (amended): the nearest-entry scan of
`loadWaterTemperatureData` never returns a (0,0)-coordinate candidate;
when every candidate is unusable it returns the absent result; and
when at least one candidate has a usable coordinate it returns a
usable one.  (The nearest-station scan of `loadForecast` performs no
such exclusion; see the counterexample below.) -/
theorem c5_zero_coordinate_excluded (refLat refLon : ℚ)
    (entries : List MeasurementEntry) :
    (∀ c, nearestEntryScan refLat refLon entries = some c →
      ¬(c.lat = 0 ∧ c.lon = 0)) ∧
    ((∀ c ∈ entries, c.lat = 0 ∧ c.lon = 0) →
      nearestEntryScan refLat refLon entries = none) ∧
    ((∃ c ∈ entries, ¬(c.lat = 0 ∧ c.lon = 0)) →
      ∃ c, nearestEntryScan refLat refLon entries = some c ∧
        ¬(c.lat = 0 ∧ c.lon = 0)) := by
  obtain ⟨ha, hb, hc⟩ :=
    foldl_entryStep_spec refLat refLon entries none (by simp)
  refine ⟨?_, ?_, ?_⟩
  · intro c hcmem
    simp only [nearestEntryScan, Option.map_eq_some'] at hcmem
    obtain ⟨⟨b, m⟩, hbm, hfst⟩ := hcmem
    exact hfst ▸ ha b m hbm
  · intro hall
    have : entries.foldl (entryStep refLat refLon) none = none :=
      hb (fun c hcmem => by simpa [usableCoord] using hall c hcmem)
    simp [nearestEntryScan, this]
  · intro hex
    obtain ⟨b, m, hbm⟩ := hc (Or.inl (by
      obtain ⟨c, hcmem, hcu⟩ := hex
      exact ⟨c, hcmem, hcu⟩))
    exact ⟨b, by simp [nearestEntryScan, hbm], ha b m hbm⟩

/-- An entry with no usable coordinate. -/
def entryZero : MeasurementEntry := ⟨1, 0, 0⟩

/-- An entry with a usable coordinate. -/
def entryGood : MeasurementEntry := ⟨2, 47, 19⟩

/-- C5 witness: with a (0,0) entry followed by a usable one, the scan
returns a usable entry, never the (0,0) one. -/
theorem c5_zero_coordinate_excluded_witness :
    ∃ c, nearestEntryScan 46 18 [entryZero, entryGood] = some c ∧
      ¬(c.lat = 0 ∧ c.lon = 0) :=
  (c5_zero_coordinate_excluded 46 18 [entryZero, entryGood]).2.2
    ⟨entryGood, by decide⟩

/-- A station whose latitude and longitude are both zero, which the
source treats as an absent coordinate. -/
def stationZero : Station := ⟨3, 0, 0⟩

/-- A station with a usable coordinate, as far from the reference
(0,1) as `stationZero` is (haversine distance is symmetric in the
longitude offset). -/
def stationTwo : Station := ⟨4, 0, 2⟩

/-- C5 counterexample: the nearest-station scan of `loadForecast`
(`src/App.tsx`, lines 666-676) performs no (0,0) exclusion.  From the
reference (0,1), the stations (0,0) and (0,2) are equally distant, so
the strict-improvement scan keeps the first-listed (0,0) station even
though a usable-coordinate candidate exists; and on an all-(0,0) list
it still returns a station rather than the absent result. -/
theorem c5_station_scan_counterexample :
    nearestStationScan 0 1 [stationZero, stationTwo] = some stationZero ∧
    stationZero.lat = 0 ∧ stationZero.lon = 0 ∧
    ¬(stationTwo.lat = 0 ∧ stationTwo.lon = 0) ∧
    nearestStationScan 0 1 [stationZero] ≠ none := by
  have hd : stationDist 0 1 stationTwo = stationDist 0 1 stationZero := by
    simp only [stationDist, stationZero, stationTwo, calculateDistance]
    norm_num
    have h1 : -Real.pi / 180 / 2 = -(Real.pi / 180 / 2) := by ring
    rw [h1, Real.sin_neg, neg_mul_neg]
  refine ⟨?_, rfl, rfl, by decide, by simp [nearestStationScan]⟩
  simp only [nearestStationScan, List.foldl_cons, List.foldl_nil]
  rw [if_neg (lt_irrefl _), if_neg (by rw [hd]; exact lt_irrefl _)]

/-! ### The weather pressure trend (C9) -/

/-- One hourly reading of the weather response: epoch timestamp and
pressure in millibars. -/
structure HourReading where
  time_epoch : ℤ
  pressure_mb : ℚ
deriving DecidableEq

/-- One forecast day of the weather response: its hourly readings. -/
structure ForecastDayW where
  hour : List HourReading
deriving DecidableEq

/-- The fields of `WeatherApiResponse` (`src/api/weather.ts`) read by
the pressure-trend derivation: the current observation's epoch and
pressure, and the forecast days with their hourly series. -/
structure WeatherApiResponse where
  last_updated_epoch : ℤ
  pressure_mb : ℚ
  forecastday : List ForecastDayW
deriving DecidableEq

/-- The three pressure-trend outcomes of `determinePressureTrend`
(rising, falling, stable). -/
inductive PressureTrend where
  | stabil
  | emelkedo
  | csokkeno
deriving DecidableEq

/-- `determinePressureTrend` of `src/api/weather.ts` (lines 111-123):
stable without history or when the delta is below 0.5, otherwise
rising on a positive delta and falling on a negative one. -/
def determinePressureTrend (currentPressure : ℚ)
    (historyPressure : Option ℚ) : PressureTrend :=
  match historyPressure with
  | none => PressureTrend.stabil
  | some hp =>
    let delta := currentPressure - hp
    if |delta| < 1 / 2 then PressureTrend.stabil
    else if 0 < delta then PressureTrend.emelkedo
    else PressureTrend.csokkeno

/-- `data.forecast.forecastday.flatMap((day) => day.hour)`. -/
def allHours (data : WeatherApiResponse) : List HourReading :=
  data.forecastday.flatMap (fun d => d.hour)

/-- The descending-epoch comparator of
`candidates.sort((a, b) => b.time_epoch - a.time_epoch)`. -/
def byEpochDesc (a b : HourReading) : Prop :=
  b.time_epoch ≤ a.time_epoch

instance : DecidableRel byEpochDesc := fun _ _ => Int.decLe _ _

instance : IsTotal HourReading byEpochDesc := ⟨fun _ _ => Int.le_total _ _⟩

instance : IsTrans HourReading byEpochDesc := ⟨fun _ _ _ h1 h2 => le_trans h2 h1⟩

/-- `extractPreviousHourPressure` of `src/api/weather.ts` (lines
125-133): among all hourly readings strictly before the current
observation epoch, take the most recent one's pressure (sort
descending by epoch, take the first), or nothing. -/
def extractPreviousHourPressure (data : WeatherApiResponse) : Option ℚ :=
  let candidates :=
    ((allHours data).filter
      (fun r => decide (r.time_epoch < data.last_updated_epoch))).insertionSort
      byEpochDesc
  candidates.head?.map (fun r => r.pressure_mb)

/-- The composed pressure-trend derivation of `fetchWeather`
(`src/api/weather.ts`, line 159). -/
def pressureTrendOf (data : WeatherApiResponse) : PressureTrend :=
  determinePressureTrend data.pressure_mb (extractPreviousHourPressure data)

/-- C9: when a previous-hour pressure exists, it is the pressure of a
reading strictly before the current observation epoch and no earlier
than any other such reading, and the trend compares the current
pressure against it with the 0.5 threshold: stable below the
threshold, rising when the current pressure is higher, falling when
lower. -/
theorem c9_pressure_trend_previous_hour (data : WeatherApiResponse)
    (p : ℚ) (h : extractPreviousHourPressure data = some p) :
    (∃ r ∈ allHours data, r.time_epoch < data.last_updated_epoch ∧
      r.pressure_mb = p ∧
      ∀ q ∈ allHours data, q.time_epoch < data.last_updated_epoch →
        q.time_epoch ≤ r.time_epoch) ∧
    pressureTrendOf data =
      (if |data.pressure_mb - p| < 1 / 2 then PressureTrend.stabil
       else if p < data.pressure_mb then PressureTrend.emelkedo
       else PressureTrend.csokkeno) := by
  simp only [extractPreviousHourPressure, Option.map_eq_some'] at h
  obtain ⟨r0, hr0, hp0⟩ := h
  have hmem : r0 ∈ ((allHours data).filter
      (fun r => decide (r.time_epoch < data.last_updated_epoch))) := by
    have : r0 ∈ ((allHours data).filter
        (fun r => decide (r.time_epoch < data.last_updated_epoch))).insertionSort
        byEpochDesc := List.mem_of_mem_head? hr0
    exact (List.perm_insertionSort byEpochDesc _).mem_iff.mp this
  have hr0all : r0 ∈ allHours data := (List.mem_filter.mp hmem).1
  have hr0lt : r0.time_epoch < data.last_updated_epoch := by
    simpa using (List.mem_filter.mp hmem).2
  constructor
  · refine ⟨r0, hr0all, hr0lt, hp0, ?_⟩
    intro q hq hqlt
    have hqmem : q ∈ ((allHours data).filter
        (fun r => decide (r.time_epoch < data.last_updated_epoch))).insertionSort
        byEpochDesc :=
      (List.perm_insertionSort byEpochDesc _).mem_iff.mpr
        (List.mem_filter.mpr ⟨hq, by simpa using hqlt⟩)
    have hsorted := List.sorted_insertionSort byEpochDesc
      ((allHours data).filter
        (fun r => decide (r.time_epoch < data.last_updated_epoch)))
    rcases hl : ((allHours data).filter
        (fun r => decide (r.time_epoch < data.last_updated_epoch))).insertionSort
        byEpochDesc with _ | ⟨hd, tl⟩
    · rw [hl] at hr0
      cases hr0
    · rw [hl] at hr0 hqmem
      rw [hl] at hsorted
      have hhd : hd = r0 := by simpa using hr0
      subst hhd
      rcases List.mem_cons.mp hqmem with h | h
      · exact h ▸ le_refl _
      · exact List.rel_of_sorted_cons hsorted q h
  · have hsome : extractPreviousHourPressure data = some p := by
      simp only [extractPreviousHourPressure, Option.map_eq_some']
      exact ⟨r0, hr0, hp0⟩
    simp only [pressureTrendOf, hsome, determinePressureTrend]
    by_cases h1 : |data.pressure_mb - p| < 1 / 2
    · rw [if_pos h1, if_pos h1]
    · rw [if_neg h1, if_neg h1]
      by_cases h2 : 0 < data.pressure_mb - p
      · rw [if_pos h2, if_pos (sub_pos.mp h2)]
      · rw [if_neg h2, if_neg (fun hlt => h2 (sub_pos.mpr hlt))]

/-- A concrete weather response: current observation at epoch 100 with
pressure 1013, and hourly readings at epochs 99 (1010 mb), 98
(1012 mb) and 101 (1016 mb, in the future) spread over two forecast
days. -/
def weatherData0 : WeatherApiResponse :=
  ⟨100, 1013, [⟨[⟨99, 1010⟩, ⟨101, 1016⟩]⟩, ⟨[⟨98, 1012⟩]⟩]⟩

/-- C9 witness: on `weatherData0` the previous-hour pressure is the
epoch-99 reading (1010 mb) and the trend follows the threshold
comparison against it. -/
theorem c9_pressure_trend_previous_hour_witness :
    (∃ r ∈ allHours weatherData0,
      r.time_epoch < weatherData0.last_updated_epoch ∧
      r.pressure_mb = 1010 ∧
      ∀ q ∈ allHours weatherData0,
        q.time_epoch < weatherData0.last_updated_epoch →
        q.time_epoch ≤ r.time_epoch) ∧
    pressureTrendOf weatherData0 =
      (if |weatherData0.pressure_mb - 1010| < 1 / 2 then PressureTrend.stabil
       else if 1010 < weatherData0.pressure_mb then PressureTrend.emelkedo
       else PressureTrend.csokkeno) :=
  c9_pressure_trend_previous_hour weatherData0 1010 (by decide)

end Gorbuljon
